import Mathlib

/-!
Verification development for the NE-NOORE Blender add-on
(`src/ne_noore_tool.py`).

The development shallowly embeds the pure logic of the add-on's operators:

* the manual relink pass of `NENOORE_OT_find_missing_files_recursive.execute`
  (directory index construction, exact filename lookup, extension-stripped
  fallback, path rewriting, and report counters);
* the portal coordinate capture operators
  (`NENOORE_OT_add_portal_vertex`, `NENOORE_OT_reset_portal`,
  `NENOORE_OT_copy_single_coord`, `NENOORE_OT_copy_all_coords`);
* the ymap export operators (`NENOORE_OT_copy_ymap_rotation`,
  `NENOORE_OT_copy_ymap_xml`).

Host-side effects are modelled as explicit data: the result of `os.walk` is a
list of `(dirpath, filenames)` pairs in traversal order, the predicate
`os.path.exists(bpy.path.abspath(p))` is the membership of `p` in a list of
resolving paths, `bpy.path.relpath` is a caller-supplied
`String → Option String` (with `none` standing for the exception branch), and
numeric values are modelled as rationals.  The state of `bpy.data.images` as
observed by the manual pass (that is, after the built-in
`bpy.ops.file.find_missing_files` attempt) is the `images` field of the
`World` structure.
-/

/-! ### String helpers (counterparts of the `os.path` functions the operator uses) -/

/-- ASCII lowercasing of a string, modelling Python's `str.lower()` as used on
filenames (`filename.lower()`, `os.path.basename(...).lower()`). -/
def strLower (s : String) : String :=
  String.mk (s.toList.map Char.toLower)

/-- `os.path.basename`: the part of the path after the last separator. -/
def basename (p : String) : String :=
  String.mk ((p.toList.reverse.takeWhile (fun c => c ≠ ('/' : Char))).reverse)

/-- `os.path.join` for one directory component and one filename. -/
def joinPath (d fn : String) : String :=
  d ++ "/" ++ fn

/-- `os.path.splitext` on a single path component: split at the last dot,
except that dots that are all leading are part of the root. -/
def splitext (s : String) : String × String :=
  let cs := s.toList
  let lastDot := (List.range cs.length).foldl
    (fun acc i => if cs.get? i = some ('.' : Char) then some i else acc) none
  match lastDot with
  | none => (s, "")
  | some i =>
      if (cs.take i).all (fun c => c = ('.' : Char)) then (s, "")
      else (String.mk (cs.take i), String.mk (cs.drop i))

/-- `os.path.splitext(s)[0]`, the extension-stripped stem. -/
def splitextStem (s : String) : String :=
  (splitext s).1

/-- The extension of a filename, lowercased and without the leading dot.
Only used by the specification-side index `buildFileMapSpec`. -/
def extOf (fn : String) : String :=
  match (splitext fn).2.toList with
  | [] => ""
  | _ :: rest => strLower (String.mk rest)

/-- `relp.startswith("//")`: Blender's marker for a blend-relative path. -/
def isBlendRelative (s : String) : Bool :=
  match s.toList with
  | '/' :: '/' :: _ => true
  | _ => false

/-! ### The search index (`file_map` in the source)

The source builds a Python dict keyed by lowercased filename, inserting only
when the key is absent; Python dicts preserve insertion order, which the
fallback scan iterates over.  The dict is modelled as an association list with
unique keys in insertion order. -/

/-- Dict lookup, `file_map.get(key)`. -/
def lookupMap : List (String × String) → String → Option String
  | [], _ => none
  | (k, v) :: rest, key => if k = key then some v else lookupMap rest key

/-- `if key not in file_map: file_map[key] = v` — insert only when absent. -/
def insertIfAbsent (m : List (String × String)) (k v : String) : List (String × String) :=
  if (lookupMap m k).isSome then m else m ++ [(k, v)]

/-- The inner loop of the index construction: register every filename of one
walked directory (`for filename in filenames`). -/
def addDir (m : List (String × String)) (dirpath : String) (filenames : List String) :
    List (String × String) :=
  filenames.foldl (fun acc fn => insertIfAbsent acc (strLower fn) (joinPath dirpath fn)) m

/-- The index construction of the source (`for dirpath, _, filenames in
os.walk(search_dir)` over `file_map`): every walked file is registered under
its lowercased filename, first discovery winning.  Note that the source applies
no extension filter. -/
def buildFileMap (walk : List (String × List String)) : List (String × String) :=
  walk.foldl (fun acc p => addDir acc p.1 p.2) []

/-- The walk flattened to `(dirpath, filename)` entries in discovery order. -/
def flattenWalk : List (String × List String) → List (String × String)
  | [] => []
  | (d, fns) :: rest => fns.map (fun fn => (d, fn)) ++ flattenWalk rest

/-- The first walked file whose lowercased filename is `key`, as a path. -/
def firstMatch : List (String × String) → String → Option String
  | [], _ => none
  | (d, fn) :: rest, key =>
      if strLower fn = key then some (joinPath d fn) else firstMatch rest key

/-- Register a flat list of `(dirpath, filename)` entries one by one.  Helper
used to reason about `buildFileMap`. -/
def addEntries (m : List (String × String)) : List (String × String) → List (String × String)
  | [] => m
  | (d, fn) :: rest => addEntries (insertIfAbsent m (strLower fn) (joinPath d fn)) rest

/-- Index construction as the specification describes it (section 4.1, step 1):
register only files whose extension, lowercased and without the leading dot,
is a member of `allowed`.  Stated following the specification's words, for
comparison with `buildFileMap`, which is translated from the source and has no
extension filter. -/
def buildFileMapSpec (allowed : List String) (walk : List (String × List String)) :
    List (String × String) :=
  (flattenWalk walk).foldl
    (fun m e =>
      if extOf e.2 ∈ allowed then insertIfAbsent m (strLower e.2) (joinPath e.1 e.2) else m)
    []

/-! ### Candidate search for one missing image -/

/-- The extension-stripped fallback scan of the source: iterate the index in
insertion order and take the first entry whose extension-stripped key equals
the extension-stripped candidate name
(`if os.path.splitext(key)[0] == name_no_ext`). -/
def fallbackScan : List (String × String) → String → Option String
  | [], _ => none
  | (k, p) :: rest, stem => if splitextStem k = stem then some p else fallbackScan rest stem

/-- Candidate selection for one lowercased missing filename: exact dict lookup
first, and only on a miss the extension-stripped fallback scan. -/
def findCandidate (fm : List (String × String)) (fname : String) : Option String :=
  match lookupMap fm fname with
  | some p => some p
  | none => fallbackScan fm (splitextStem fname)

/-! ### Images and the relink pass -/

/-- One entry of `bpy.data.images` as far as the operator reads it:
its name, its `filepath` (the source reads `filepath_raw` when present, which
holds the same raw path string), and whether it is packed
(`img.packed_file`, the embedded case). -/
structure Image where
  name : String
  filepath : String
  packedFile : Bool
deriving Repr, DecidableEq

/-- The report data of one run: the resulting image list, the number of images
relinked (`relinked_count`) and the number of missing images examined
(`len(missing_images)`); the still-missing count is `examined - relinked`. -/
structure RelinkResult where
  images : List Image
  relinked : Nat
  examined : Nat
deriving Repr, DecidableEq

/-- Operator outcome: `{'CANCELLED'}` or `{'FINISHED'}` with its report. -/
inductive ExecOutcome where
  | cancelled
  | finished (r : RelinkResult)
deriving Repr, DecidableEq

/-- The environment of one invocation: the operator's `directory` property, the
result of `os.path.isdir` on its abspath, the `os.walk` listing of the search
directory, the set of reference paths that resolve to an existing file
(`os.path.exists(bpy.path.abspath(p))`), and the image list as seen by the
manual pass. -/
structure World where
  directory : String
  isDir : Bool
  walk : List (String × List String)
  resolves : List String
  images : List Image
deriving Repr, DecidableEq

/-- The `missing_images` filter of the source: a nonempty, unpacked filepath
that does not resolve to an existing file
(`img.filepath and (not img.packed_file) and not os.path.exists(...)`). -/
def isMissing (resolves : List String) (img : Image) : Bool :=
  if img.filepath = "" then false
  else if img.packedFile then false
  else if img.filepath ∈ resolves then false
  else true

/-- The path written into a matched image: the blend-relative form when
`bpy.path.relpath` yields one (a `//`-prefixed string), else the absolute
candidate; an exception from `relpath` (`none`) also falls back to the
candidate. -/
def newPath (relpath : String → Option String) (c : String) : String :=
  match relpath c with
  | some r => if isBlendRelative r then r else c
  | none => c

/-- Relink one missing image: pick a candidate by filename and rewrite the
filepath when one is found; the boolean reports whether a relink happened. -/
def relinkImage (fm : List (String × String)) (relpath : String → Option String)
    (img : Image) : Image × Bool :=
  match findCandidate fm (strLower (basename img.filepath)) with
  | some c => ({ img with filepath := newPath relpath c }, true)
  | none => (img, false)

/-- Per-image step of the pass: only missing images are touched. -/
def relinkStep (resolves : List String) (fm : List (String × String))
    (relpath : String → Option String) (img : Image) : Image :=
  if isMissing resolves img then (relinkImage fm relpath img).1 else img

/-- `NENOORE_OT_find_missing_files_recursive.execute`, after the built-in
`bpy.ops.file.find_missing_files` attempt: validate the directory, collect the
missing images, build the index, and relink each missing image by filename. -/
def execute (relpath : String → Option String) (w : World) : ExecOutcome :=
  if w.directory = "" then ExecOutcome.cancelled
  else if w.isDir = false then ExecOutcome.cancelled
  else if (w.images.filter (fun i => isMissing w.resolves i)).isEmpty then
    ExecOutcome.finished ⟨w.images, 0, 0⟩
  else
    ExecOutcome.finished
      ⟨w.images.map (relinkStep w.resolves (buildFileMap w.walk) relpath),
       ((w.images.filter (fun i => isMissing w.resolves i)).filter
         (fun i => (relinkImage (buildFileMap w.walk) relpath i).2)).length,
       (w.images.filter (fun i => isMissing w.resolves i)).length⟩

/-! ### Portal creator (`scene.nenoore_portal_coords`) -/

/-- A stored world coordinate, the payload of `NENOORE_PortalCoord`. -/
abbrev V3 := ℚ × ℚ × ℚ

/-- Outcome of a portal or clipboard operator. -/
inductive OpOutcome where
  | cancelled
  | finished
deriving Repr, DecidableEq

/-- `NENOORE_OT_add_portal_vertex.execute`: guards for a mesh object in edit
mode with exactly one selected vertex, refuses when four coordinates are
already stored, else appends the selected vertex's world coordinate. -/
def add_portal_vertex (objIsMesh editMode : Bool) (selectedCount : Nat)
    (worldCoord : V3) (coords : List V3) : List V3 × OpOutcome :=
  if objIsMesh = false then (coords, OpOutcome.cancelled)
  else if editMode = false then (coords, OpOutcome.cancelled)
  else if selectedCount ≠ 1 then (coords, OpOutcome.cancelled)
  else if coords.length ≥ 4 then (coords, OpOutcome.cancelled)
  else (coords ++ [worldCoord], OpOutcome.finished)

/-- `NENOORE_OT_reset_portal.execute`: `coords.clear()`. -/
def reset_portal (_coords : List V3) : List V3 :=
  []

/-- `NENOORE_OT_copy_single_coord.execute`: bounds-checks the index and copies
one coordinate to the clipboard; the stored list is never changed. -/
def copy_single_coord (index : ℤ) (coords : List V3) : List V3 × OpOutcome :=
  if index < 0 ∨ (coords.length : ℤ) ≤ index then (coords, OpOutcome.cancelled)
  else (coords, OpOutcome.finished)

/-- `NENOORE_OT_copy_all_coords.execute`: requires exactly four stored
coordinates and copies them to the clipboard; the stored list is never
changed. -/
def copy_all_coords (coords : List V3) : List V3 × OpOutcome :=
  if coords.length ≠ 4 then (coords, OpOutcome.cancelled)
  else (coords, OpOutcome.finished)

/-! ### Ymap export (`scene.nenoore_ymap_props`)

`NENOORE_YmapProps.rotation` is a size-4 float vector filled from a
`mathutils.Quaternion`, whose component order is `(w, x, y, z)`; index `0`
holds `w` and indices `1..3` hold `x`, `y`, `z`.  The `:.6f` format of the
source is modelled by `fmt6` on rationals, with round-half-to-even as Python
uses for fixed-point formatting. -/

/-- One decimal digit character (`n` is already reduced below 10 except in the
defensive final case). -/
def digitChar (n : Nat) : Char :=
  match n with
  | 0 => '0' | 1 => '1' | 2 => '2' | 3 => '3' | 4 => '4'
  | 5 => '5' | 6 => '6' | 7 => '7' | 8 => '8' | _ => '9'

/-- The six fractional digits of `n` (taken modulo `10 ^ 6`), most significant
first. -/
def frac6 (n : Nat) : String :=
  String.mk [digitChar (n / 100000 % 10), digitChar (n / 10000 % 10),
    digitChar (n / 1000 % 10), digitChar (n / 100 % 10),
    digitChar (n / 10 % 10), digitChar (n % 10)]

/-- Floor of a rational as an integer. -/
def qfloor (q : ℚ) : ℤ :=
  q.num.fdiv (q.den : ℤ)

/-- Round half to even, the rounding used by Python's fixed-point format. -/
def rhe (q : ℚ) : ℤ :=
  let f := qfloor q
  let r := q - (f : ℚ)
  if r < 1 / 2 then f
  else if 1 / 2 < (r : ℚ) then f + 1
  else if f % 2 = 0 then f else f + 1

/-- Python's `"%.6f"` (`f"{v:.6f}"`) on the rational model of a float value:
sign, integer part, and exactly six fractional digits. -/
def fmt6 (q : ℚ) : String :=
  let s := if q < 0 then "-" else ""
  let m := (rhe (|q| * 1000000)).toNat
  s ++ toString (m / 1000000) ++ "." ++ frac6 (m % 1000000)

/-- The stored layout of `NENOORE_YmapProps.rotation` after
`get_ymap_coords` assigns a quaternion to it: index `0` is `w`, indices
`1`, `2`, `3` are `x`, `y`, `z`. -/
def rotStore (w x y z : ℚ) (i : Fin 4) : ℚ :=
  match i.val with
  | 0 => w | 1 => x | 2 => y | _ => z

/-- The stored layout of `NENOORE_YmapProps.position`. -/
def posStore (x y z : ℚ) (i : Fin 3) : ℚ :=
  match i.val with
  | 0 => x | 1 => y | _ => z

/-- `NENOORE_OT_copy_ymap_rotation.execute`: reads the stored vector at
indices `1, 2, 3, 0` and formats `x, y, z, w` to six decimals. -/
def copy_ymap_rot (rot : Fin 4 → ℚ) : String :=
  fmt6 (rot 1) ++ ", " ++ fmt6 (rot 2) ++ ", " ++ fmt6 (rot 3) ++ ", " ++ fmt6 (rot 0)

/-- `NENOORE_OT_copy_ymap_xml.execute`: the position and rotation XML lines,
with the rotation attributes read from indices `1, 2, 3, 0`. -/
def copy_ymap_xml (pos : Fin 3 → ℚ) (rot : Fin 4 → ℚ) : String :=
  "  <position x=\"" ++ fmt6 (pos 0) ++ "\" y=\"" ++ fmt6 (pos 1) ++ "\" z=\"" ++
    fmt6 (pos 2) ++ "\" />\n" ++
  "  <rotation x=\"" ++ fmt6 (rot 1) ++ "\" y=\"" ++ fmt6 (rot 2) ++ "\" z=\"" ++
    fmt6 (rot 3) ++ "\" w=\"" ++ fmt6 (rot 0) ++ "\" />"

/-! ### Lemmas about the search index -/

/-- First-of-two options; lookup in a concatenated association list prefers
the left part. -/
def ofirst (a b : Option String) : Option String :=
  match a with
  | some x => some x
  | none => b

lemma ofirst_none_right (a : Option String) : ofirst a none = a := by
  cases a <;> rfl

lemma ofirst_assoc (a b c : Option String) :
    ofirst (ofirst a b) c = ofirst a (ofirst b c) := by
  cases a <;> rfl

lemma lookupMap_append (m m' : List (String × String)) (k : String) :
    lookupMap (m ++ m') k = ofirst (lookupMap m k) (lookupMap m' k) := by
  induction m with
  | nil => rfl
  | cons p rest ih =>
    obtain ⟨k', v'⟩ := p
    by_cases h : k' = k <;> simp [lookupMap, h, ih, ofirst]

lemma lookupMap_insertIfAbsent (m : List (String × String)) (k v key : String) :
    lookupMap (insertIfAbsent m k v) key =
      ofirst (lookupMap m key) (if k = key then some v else none) := by
  unfold insertIfAbsent
  by_cases h : (lookupMap m k).isSome
  · rw [if_pos h]
    by_cases hk : k = key
    · subst hk
      obtain ⟨x, hx⟩ := Option.isSome_iff_exists.mp h
      simp [hx, ofirst]
    · simp [hk, ofirst_none_right]
  · rw [if_neg h, lookupMap_append]
    by_cases hk : k = key <;> simp [lookupMap, hk]

lemma lookupMap_addEntries (entries : List (String × String))
    (m : List (String × String)) (key : String) :
    lookupMap (addEntries m entries) key =
      ofirst (lookupMap m key) (firstMatch entries key) := by
  induction entries generalizing m with
  | nil => simp [addEntries, firstMatch, ofirst_none_right]
  | cons e rest ih =>
    obtain ⟨d, fn⟩ := e
    rw [addEntries, ih, lookupMap_insertIfAbsent, ofirst_assoc]
    by_cases h : strLower fn = key <;> simp [firstMatch, h, ofirst]

lemma addEntries_append (l₁ l₂ : List (String × String)) (m : List (String × String)) :
    addEntries m (l₁ ++ l₂) = addEntries (addEntries m l₁) l₂ := by
  induction l₁ generalizing m with
  | nil => rfl
  | cons e rest ih =>
    obtain ⟨d, fn⟩ := e
    simp [addEntries, ih]

lemma addDir_eq_addEntries (fns : List String) (d : String) (m : List (String × String)) :
    addDir m d fns = addEntries m (fns.map (fun fn => (d, fn))) := by
  induction fns generalizing m with
  | nil => rfl
  | cons fn rest ih =>
    simp only [addDir, List.foldl_cons, List.map_cons, addEntries] at ih ⊢
    exact ih (insertIfAbsent m (strLower fn) (joinPath d fn))

lemma foldl_addDir_eq (walk : List (String × List String)) (m : List (String × String)) :
    walk.foldl (fun acc p => addDir acc p.1 p.2) m = addEntries m (flattenWalk walk) := by
  induction walk generalizing m with
  | nil => rfl
  | cons p rest ih =>
    obtain ⟨d, fns⟩ := p
    rw [flattenWalk, addEntries_append, List.foldl_cons, ih, addDir_eq_addEntries]

lemma buildFileMap_eq_addEntries (walk : List (String × List String)) :
    buildFileMap walk = addEntries [] (flattenWalk walk) :=
  foldl_addDir_eq walk []

lemma lookupMap_buildFileMap (walk : List (String × List String)) (key : String) :
    lookupMap (buildFileMap walk) key = firstMatch (flattenWalk walk) key := by
  rw [buildFileMap_eq_addEntries, lookupMap_addEntries]
  rfl

lemma mem_flattenWalk {walk : List (String × List String)} {d fn : String}
    {fns : List String} (hw : (d, fns) ∈ walk) (hf : fn ∈ fns) :
    (d, fn) ∈ flattenWalk walk := by
  induction walk with
  | nil => cases hw
  | cons p rest ih =>
    rcases List.mem_cons.mp hw with h | h
    · subst h
      exact List.mem_append_left _ (List.mem_map.mpr ⟨fn, hf, rfl⟩)
    · exact List.mem_append_right _ (ih h)

lemma firstMatch_isSome_of_mem {entries : List (String × String)} {d fn key : String}
    (hm : (d, fn) ∈ entries) (hk : strLower fn = key) :
    (firstMatch entries key).isSome = true := by
  induction entries with
  | nil => cases hm
  | cons e rest ih =>
    obtain ⟨d', fn'⟩ := e
    by_cases h : strLower fn' = key
    · simp [firstMatch, h]
    · rcases List.mem_cons.mp hm with he | he
      · cases he
        exact absurd hk h
      · simpa [firstMatch, h] using ih he

lemma lookupMap_eq_none_iff (m : List (String × String)) (k : String) :
    lookupMap m k = none ↔ k ∉ m.map Prod.fst := by
  induction m with
  | nil => simp [lookupMap]
  | cons p rest ih =>
    obtain ⟨k', v'⟩ := p
    by_cases h : k' = k
    · subst h
      simp [lookupMap]
    · rw [lookupMap, if_neg h, ih, List.map_cons]
      constructor
      · intro hk hmem
        rcases List.mem_cons.mp hmem with he | he
        · exact h he.symm
        · exact hk he
      · intro hk hke
        exact hk (List.mem_cons_of_mem _ hke)

lemma nodupKeys_insertIfAbsent (m : List (String × String)) (k v : String)
    (h : (m.map Prod.fst).Nodup) : ((insertIfAbsent m k v).map Prod.fst).Nodup := by
  unfold insertIfAbsent
  by_cases hs : (lookupMap m k).isSome
  · simpa [hs] using h
  · have hk : k ∉ m.map Prod.fst :=
      (lookupMap_eq_none_iff m k).mp (Option.not_isSome_iff_eq_none.mp hs)
    simp only [if_neg hs, List.map_append, List.map_cons, List.map_nil]
    rw [List.nodup_append]
    refine ⟨h, List.nodup_singleton k, ?_⟩
    intro a ha hb
    rw [List.mem_singleton] at hb
    exact hk (hb ▸ ha)

lemma nodupKeys_addEntries (entries : List (String × String)) (m : List (String × String))
    (h : (m.map Prod.fst).Nodup) : ((addEntries m entries).map Prod.fst).Nodup := by
  induction entries generalizing m with
  | nil => exact h
  | cons e rest ih =>
    obtain ⟨d, fn⟩ := e
    exact ih _ (nodupKeys_insertIfAbsent _ _ _ h)

/-! ### Claim theorems -/

/-- Claim C2: whenever the search root does not exist or is not a directory
(`os.path.isdir` is false), the operation is cancelled immediately: it is not
attempted and no report is produced. -/
theorem invalid_root_cancels (relpath : String → Option String) (w : World)
    (hdir : w.isDir = false) : execute relpath w = ExecOutcome.cancelled := by
  unfold execute
  rw [hdir]
  simp

theorem invalid_root_cancels_witness :
    execute (fun _ => (none : Option String))
      { directory := "x", isDir := false, walk := [], resolves := [], images := [] } =
      ExecOutcome.cancelled :=
  invalid_root_cancels _ _ rfl

/-- Claim C3: for every index and candidate filename, the extension-stripped
fallback scan runs only when the exact lowercase-filename lookup misses, and
when the exact lookup hits, its result is the candidate used — so whenever the
two would name different indexed files, the exact match wins. -/
theorem exact_lookup_beats_fallback (fm : List (String × String)) (fname : String) :
    (∀ p, lookupMap fm fname = some p → findCandidate fm fname = some p) ∧
    (lookupMap fm fname = none →
      findCandidate fm fname = fallbackScan fm (splitextStem fname)) := by
  unfold findCandidate
  cases h : lookupMap fm fname with
  | none => simp
  | some p => simp

theorem exact_lookup_beats_fallback_witness :
    findCandidate [("a.jpg", "p1"), ("a.png", "p2")] "a.png" = some "p2" ∧
    fallbackScan [("a.jpg", "p1"), ("a.png", "p2")] (splitextStem "a.png") = some "p1" :=
  ⟨(exact_lookup_beats_fallback [("a.jpg", "p1"), ("a.png", "p2")] "a.png").1 "p2" (by decide),
   by decide⟩

/-- Claim C4: for every walk and key, the built index holds exactly one path
per lowercased filename key — the first one discovered in traversal order —
and later discoveries never overwrite it: its keys are duplicate-free and
looking a key up returns precisely the first matching file of the flattened
walk. -/
theorem index_first_discovery_wins (walk : List (String × List String)) (key : String) :
    lookupMap (buildFileMap walk) key = firstMatch (flattenWalk walk) key ∧
    ((buildFileMap walk).map Prod.fst).Nodup := by
  refine ⟨lookupMap_buildFileMap walk key, ?_⟩
  rw [buildFileMap_eq_addEntries]
  exact nodupKeys_addEntries _ [] List.nodup_nil

/-- Claim C5: index keys and lookups are case-insensitive — every walked file
is keyed by its lowercased name, so a missing reference whose basename differs
only by letter case from a walked filename succeeds in the exact lookup and is
relinked. -/
theorem case_insensitive_lookup (walk : List (String × List String)) (d fn : String)
    (fns : List String) (relpath : String → Option String) (img : Image)
    (hw : (d, fns) ∈ walk) (hf : fn ∈ fns)
    (hcase : strLower (basename img.filepath) = strLower fn) :
    (lookupMap (buildFileMap walk) (strLower (basename img.filepath))).isSome = true ∧
    (relinkImage (buildFileMap walk) relpath img).2 = true := by
  have h1 : (lookupMap (buildFileMap walk) (strLower (basename img.filepath))).isSome = true := by
    rw [hcase, lookupMap_buildFileMap]
    exact firstMatch_isSome_of_mem (mem_flattenWalk hw hf) rfl
  obtain ⟨p, hp⟩ := Option.isSome_iff_exists.mp h1
  exact ⟨h1, by simp [relinkImage, findCandidate, hp]⟩

theorem case_insensitive_lookup_witness :
    (lookupMap (buildFileMap [("root", ["wall_diffuse.png"])])
      (strLower (basename (Image.mk "img" "textures/old/wall_diffuse.PNG" false).filepath))).isSome
        = true ∧
    (relinkImage (buildFileMap [("root", ["wall_diffuse.png"])]) (fun _ => none)
      (Image.mk "img" "textures/old/wall_diffuse.PNG" false)).2 = true :=
  case_insensitive_lookup [("root", ["wall_diffuse.png"])] "root" "wall_diffuse.png"
    ["wall_diffuse.png"] (fun _ => none) (Image.mk "img" "textures/old/wall_diffuse.PNG" false)
    (by decide) (by decide) (by decide)

/-- Claim C1 counterexample: the claim says only files with an allowed
extension are registered and that a reference like `floor.dds` stays missing
when the extension set is `["png", "jpg"]` (or empty).  On the code, the
specification-side filtered index is empty for both extension sets, yet the
index the source builds registers `floor.DDS` anyway and a run relinks the
reference instead of reporting it still missing. -/
theorem extension_filter_counterexample :
    buildFileMapSpec ["png", "jpg"] [("root", ["floor.DDS"])] = [] ∧
    buildFileMapSpec [] [("root", ["floor.DDS"])] = [] ∧
    lookupMap (buildFileMap [("root", ["floor.DDS"])]) "floor.dds" = some "root/floor.DDS" ∧
    execute (fun _ => none)
      { directory := "root", isDir := true, walk := [("root", ["floor.DDS"])],
        resolves := [], images := [Image.mk "floor" "tex/floor.dds" false] } =
      ExecOutcome.finished ⟨[Image.mk "floor" "root/floor.DDS" false], 1, 1⟩ := by
  refine ⟨by decide, by decide, by decide, by decide⟩

/-- Claim C1 (amended): the relink pass applies no extension filter — every
file of the walked tree is registered in the search index under its lowercased
filename, whatever its extension. -/
theorem index_registers_all_files (walk : List (String × List String)) (d fn : String)
    (fns : List String) (hw : (d, fns) ∈ walk) (hf : fn ∈ fns) :
    (lookupMap (buildFileMap walk) (strLower fn)).isSome = true := by
  rw [lookupMap_buildFileMap]
  exact firstMatch_isSome_of_mem (mem_flattenWalk hw hf) rfl

theorem index_registers_all_files_witness :
    (lookupMap (buildFileMap [("root", ["floor.DDS"])]) (strLower "floor.DDS")).isSome = true :=
  index_registers_all_files [("root", ["floor.DDS"])] "root" "floor.DDS" ["floor.DDS"]
    (by decide) (by decide)

/-- Claim C6 counterexample: the claim's "if and only if" fails on the code —
an image with an empty filepath is neither embedded nor does its path resolve
to an existing file, yet the source's `missing_images` filter skips it (the
`img.filepath` truthiness guard), so it is not a relink candidate. -/
theorem candidate_iff_counterexample :
    ¬ ∀ (resolves : List String) (img : Image),
        isMissing resolves img = true ↔
          (img.packedFile = false ∧ img.filepath ∉ resolves) := by
  intro h
  have h2 := (h [] (Image.mk "img" "" false)).mpr (by decide)
  exact absurd h2 (by decide)

/-- Claim C6 (amended): a reference is a relink candidate exactly when its
filepath is nonempty, it is not embedded (packed), and its path does not
resolve to an existing file; and any reference that is not a candidate is
never rewritten by the pass. -/
theorem candidate_characterization :
    (∀ (resolves : List String) (img : Image),
      isMissing resolves img = true ↔
        (img.filepath ≠ "" ∧ img.packedFile = false ∧ img.filepath ∉ resolves)) ∧
    (∀ (relpath : String → Option String) (w : World) (r : RelinkResult) (i : Nat)
        (img : Image), execute relpath w = ExecOutcome.finished r →
      w.images[i]? = some img → isMissing w.resolves img = false →
      r.images[i]? = some img) := by
  constructor
  · intro resolves img
    unfold isMissing
    split_ifs with h1 h2 h3 <;> simp_all
  · intro relpath w r i img hr hi hm
    unfold execute at hr
    split_ifs at hr with h1 h2 h3
    · cases hr
      exact hi
    · cases hr
      rw [List.getElem?_map, hi]
      simp [relinkStep, hm]

theorem candidate_characterization_witness :
    isMissing ["q"] (Image.mk "i" "p" false) = true ∧
    isMissing ["p"] (Image.mk "i" "p" false) = false :=
  ⟨(candidate_characterization.1 ["q"] (Image.mk "i" "p" false)).mpr (by decide), by decide⟩

/-- Claim C7: on a valid root, the pass always finishes; a missing reference
for which no candidate is found keeps its filepath unchanged and is recorded
as still missing in the aggregate report (examined strictly exceeds relinked),
and the rest of the batch is still processed — no unmatched reference is ever
fatal. -/
theorem unmatched_reference_is_not_fatal (relpath : String → Option String) (w : World)
    (hd : ¬ w.directory = "") (hdir : w.isDir = true) :
    ∃ r : RelinkResult, execute relpath w = ExecOutcome.finished r ∧
      r.examined = (w.images.filter (fun i => isMissing w.resolves i)).length ∧
      ∀ (i : Nat) (img : Image), w.images[i]? = some img → isMissing w.resolves img = true →
        findCandidate (buildFileMap w.walk) (strLower (basename img.filepath)) = none →
        r.images[i]? = some img ∧ r.relinked < r.examined := by
  have hx : execute relpath w =
      if (w.images.filter (fun i => isMissing w.resolves i)).isEmpty then
        ExecOutcome.finished ⟨w.images, 0, 0⟩
      else
        ExecOutcome.finished
          ⟨w.images.map (relinkStep w.resolves (buildFileMap w.walk) relpath),
           ((w.images.filter (fun i => isMissing w.resolves i)).filter
             (fun i => (relinkImage (buildFileMap w.walk) relpath i).2)).length,
           (w.images.filter (fun i => isMissing w.resolves i)).length⟩ := by
    unfold execute
    rw [if_neg hd, hdir]
    simp
  by_cases hemp : (w.images.filter (fun i => isMissing w.resolves i)).isEmpty
  · rw [if_pos hemp] at hx
    refine ⟨_, hx, ?_, ?_⟩
    · have : w.images.filter (fun i => isMissing w.resolves i) = [] :=
        List.isEmpty_iff.mp hemp
      simp [this]
    · intro i img hi hm _hc
      exfalso
      have himg : img ∈ w.images := List.getElem?_mem hi
      have hmem : img ∈ w.images.filter (fun i => isMissing w.resolves i) :=
        List.mem_filter.mpr ⟨himg, hm⟩
      rw [List.isEmpty_iff.mp hemp] at hmem
      cases hmem
  · rw [if_neg hemp] at hx
    refine ⟨_, hx, rfl, ?_⟩
    intro i img hi hm hc
    have himg : img ∈ w.images := List.getElem?_mem hi
    have hmem : img ∈ w.images.filter (fun i => isMissing w.resolves i) :=
      List.mem_filter.mpr ⟨himg, hm⟩
    constructor
    · rw [List.getElem?_map, hi]
      simp [relinkStep, hm, relinkImage, hc]
    · have hle := List.length_filter_le
        (fun i => (relinkImage (buildFileMap w.walk) relpath i).2)
        (w.images.filter (fun i => isMissing w.resolves i))
      refine Nat.lt_of_le_of_ne hle ?_
      intro heq
      have heqlist := (List.filter_sublist
        (l := w.images.filter (fun i => isMissing w.resolves i))
        (p := fun i => (relinkImage (buildFileMap w.walk) relpath i).2)).eq_of_length heq
      have hmem2 : img ∈ (w.images.filter (fun i => isMissing w.resolves i)).filter
          (fun i => (relinkImage (buildFileMap w.walk) relpath i).2) := by
        rw [heqlist]
        exact hmem
      have hq := (List.mem_filter.mp hmem2).2
      simp [relinkImage, hc] at hq

theorem unmatched_reference_is_not_fatal_witness :
    ∃ r : RelinkResult, execute (fun _ => (none : Option String))
        { directory := "d", isDir := true, walk := [], resolves := [],
          images := [Image.mk "i" "missing.png" false] } = ExecOutcome.finished r ∧
      r.examined = (([Image.mk "i" "missing.png" false]).filter
        (fun i => isMissing [] i)).length ∧
      ∀ (i : Nat) (img : Image), ([Image.mk "i" "missing.png" false])[i]? = some img →
        isMissing [] img = true →
        findCandidate (buildFileMap []) (strLower (basename img.filepath)) = none →
        r.images[i]? = some img ∧ r.relinked < r.examined :=
  unmatched_reference_is_not_fatal (fun _ => none) _ (by decide) rfl

/-- Claim C8: running the pass on a reference set whose paths all resolve to
existing files changes no filepath and yields a report of zero relinked and
zero still missing — so a second run after a fully successful one is a no-op,
and an empty reference list likewise yields an all-zero report. -/
theorem relink_idempotent_on_resolved (relpath : String → Option String) (w : World)
    (hd : ¬ w.directory = "") (hdir : w.isDir = true)
    (hres : ∀ img ∈ w.images, img.filepath ∈ w.resolves) :
    execute relpath w = ExecOutcome.finished ⟨w.images, 0, 0⟩ := by
  have hfil : w.images.filter (fun i => isMissing w.resolves i) = [] := by
    rw [List.filter_eq_nil_iff]
    intro img hi
    simp [isMissing, hres img hi]
  unfold execute
  rw [if_neg hd, hdir, hfil]
  simp

theorem relink_idempotent_on_resolved_witness :
    execute (fun _ => (none : Option String))
      { directory := "d", isDir := true, walk := [], resolves := ["p"],
        images := [Image.mk "i" "p" false] } =
      ExecOutcome.finished ⟨[Image.mk "i" "p" false], 0, 0⟩ :=
  relink_idempotent_on_resolved (fun _ => none) _ (by decide) rfl (by decide)

/-- Claim C9: the stored portal coordinate list never exceeds four entries —
`add_portal_vertex` refuses (leaving the list unchanged) whenever four
coordinates are stored, `reset_portal` empties the list, and the copy
operators never grow it, so `length ≤ 4` is preserved by every operation. -/
theorem portal_capacity_invariant (objIsMesh editMode : Bool) (selectedCount : Nat)
    (worldCoord : V3) (index : ℤ) (coords : List V3) (h : coords.length ≤ 4) :
    (add_portal_vertex objIsMesh editMode selectedCount worldCoord coords).1.length ≤ 4 ∧
    (coords.length = 4 →
      add_portal_vertex objIsMesh editMode selectedCount worldCoord coords =
        (coords, OpOutcome.cancelled)) ∧
    (reset_portal coords).length ≤ 4 ∧
    (copy_single_coord index coords).1.length ≤ 4 ∧
    (copy_all_coords coords).1.length ≤ 4 := by
  unfold add_portal_vertex reset_portal copy_single_coord copy_all_coords
  refine ⟨?_, ?_, ?_, ?_, ?_⟩
  · split_ifs with h1 h2 h3 h4
    · exact h
    · exact h
    · exact h
    · exact h
    · simp only [List.length_append, List.length_singleton]
      omega
  · intro h4
    split_ifs with g1 g2 g3 g4 <;> simp_all
  · simp
  · split_ifs <;> simpa using h
  · split_ifs <;> simpa using h

theorem portal_capacity_invariant_witness :
    (add_portal_vertex true true 1 ((9 : ℚ), 9, 9)
      [((0 : ℚ), 0, 0), ((1 : ℚ), 1, 1), ((2 : ℚ), 2, 2), ((3 : ℚ), 3, 3)]).1.length ≤ 4 ∧
    add_portal_vertex true true 1 ((9 : ℚ), 9, 9)
      [((0 : ℚ), 0, 0), ((1 : ℚ), 1, 1), ((2 : ℚ), 2, 2), ((3 : ℚ), 3, 3)] =
      ([((0 : ℚ), 0, 0), ((1 : ℚ), 1, 1), ((2 : ℚ), 2, 2), ((3 : ℚ), 3, 3)],
        OpOutcome.cancelled) :=
  ⟨(portal_capacity_invariant true true 1 ((9 : ℚ), 9, 9) 0
      [((0 : ℚ), 0, 0), ((1 : ℚ), 1, 1), ((2 : ℚ), 2, 2), ((3 : ℚ), 3, 3)] (by simp)).1,
   (portal_capacity_invariant true true 1 ((9 : ℚ), 9, 9) 0
      [((0 : ℚ), 0, 0), ((1 : ℚ), 1, 1), ((2 : ℚ), 2, 2), ((3 : ℚ), 3, 3)] (by simp)).2.1
      (by simp)⟩

/-- `digitChar` always yields a decimal digit character. -/
lemma digitChar_isDigit : ∀ n : Nat, (digitChar n).isDigit = true
  | 0 => by decide
  | 1 => by decide
  | 2 => by decide
  | 3 => by decide
  | 4 => by decide
  | 5 => by decide
  | 6 => by decide
  | 7 => by decide
  | 8 => by decide
  | _ + 9 => rfl

/-- Every character of the six-digit fractional block is a decimal digit. -/
lemma frac6_digits (n : Nat) : ∀ c ∈ (frac6 n).data, c.isDigit = true := by
  intro c hc
  have hc2 : c ∈ [digitChar (n / 100000 % 10), digitChar (n / 10000 % 10),
      digitChar (n / 1000 % 10), digitChar (n / 100 % 10),
      digitChar (n / 10 % 10), digitChar (n % 10)] := hc
  simp only [List.mem_cons, List.not_mem_nil, or_false] at hc2
  rcases hc2 with rfl | rfl | rfl | rfl | rfl | rfl <;> exact digitChar_isDigit _

/-- Claim C10: the export operators reorder the stored `(w, x, y, z)`
quaternion layout to `(x, y, z, w)` — the clipboard line and the XML rotation
attributes read element `1` as `x`, `2` as `y`, `3` as `z`, and `0` as `w` —
and every component is formatted with exactly six fractional digits. -/
theorem ymap_export_reorders_quaternion (w x y z px py pz : ℚ) :
    copy_ymap_rot (rotStore w x y z) =
      fmt6 x ++ ", " ++ fmt6 y ++ ", " ++ fmt6 z ++ ", " ++ fmt6 w ∧
    copy_ymap_xml (posStore px py pz) (rotStore w x y z) =
      "  <position x=\"" ++ fmt6 px ++ "\" y=\"" ++ fmt6 py ++ "\" z=\"" ++
        fmt6 pz ++ "\" />\n" ++
      "  <rotation x=\"" ++ fmt6 x ++ "\" y=\"" ++ fmt6 y ++ "\" z=\"" ++
        fmt6 z ++ "\" w=\"" ++ fmt6 w ++ "\" />" ∧
    (∀ q : ℚ, ∃ pre d, fmt6 q = pre ++ "." ++ d ∧ d.length = 6 ∧
      ∀ c ∈ d.data, c.isDigit = true) := by
  refine ⟨rfl, rfl, ?_⟩
  intro q
  refine ⟨(if q < 0 then "-" else "") ++ toString ((rhe (|q| * 1000000)).toNat / 1000000),
    frac6 ((rhe (|q| * 1000000)).toNat % 1000000), rfl, rfl, ?_⟩
  exact frac6_digits _
